import Mathlib

/-!
Shallow embedding of `rust-core/src/lib.rs` (nockchain-multisig): a
threshold-multisig transaction builder.  Machine integers (`u64`, `usize`)
are modelled as `Nat`, with explicit `% 2 ^ 64` where Rust release-mode
wrapping arithmetic applies.  Fallible Rust functions returning
`Result<T, String>` are modelled as `Except String T`.  The JSON transport
layer of the WASM boundary (parsing/serialization of arguments and results)
is external to the core logic; boundary operations are embedded directly
over the parsed values.
-/

set_option autoImplicit false

namespace Multisig

/-- `pub struct PublicKey(pub String);` — equality is exact string equality. -/
structure PublicKey where
  val : String
deriving DecidableEq, Repr

/-- `pub struct Signature(pub String);` -/
structure Signature where
  val : String
deriving DecidableEq, Repr

/-- `pub struct NoteName { first: String, last: String }` -/
structure NoteName where
  first : String
  last : String
deriving DecidableEq, Repr

/-- `pub struct PkhCondition { threshold: usize, pubkeys: Vec<PublicKey> }` -/
structure PkhCondition where
  threshold : Nat
  pubkeys : List PublicKey
deriving DecidableEq, Repr

/-- The `HashSet` duplicate-detection loop of `PkhCondition::validate`:
`set.insert(pk)` returns `false` when `pk` is already present, upon which the
loop reports a duplicate.  The hash set is modelled as the list of keys seen
so far (membership is by the same equality). -/
def dupScan (seen : List PublicKey) : List PublicKey → Bool
  | [] => false
  | pk :: rest => if pk ∈ seen then true else dupScan (pk :: seen) rest

/-- `PkhCondition::validate` (lib.rs lines 29–45). -/
def PkhCondition.validate (c : PkhCondition) : Except String Unit :=
  if c.threshold = 0 then .error "Threshold must be >= 1"
  else if c.threshold > c.pubkeys.length then .error "Threshold exceeds number of pubkeys"
  else if dupScan [] c.pubkeys then .error "Duplicate public key in multisig set"
  else .ok ()

/-- `pub struct Lock { pkh: PkhCondition }` -/
structure Lock where
  pkh : PkhCondition
deriving DecidableEq, Repr

/-- `pub struct Note { name: NoteName, value: u64, lock: Lock }` -/
structure Note where
  name : NoteName
  value : Nat
  lock : Lock
deriving DecidableEq, Repr

/-- `pub struct Seeds { message_hash: String, signatures: Vec<(PublicKey, Signature)> }` -/
structure Seeds where
  message_hash : String
  signatures : List (PublicKey × Signature)
deriving DecidableEq, Repr

/-- `Seeds::new` — created empty with a hash. -/
def Seeds.new (message_hash : String) : Seeds :=
  { message_hash := message_hash, signatures := [] }

/-- `Seeds::add_signature` — `retain(|(pk, _)| pk != &pubkey)` then `push`. -/
def Seeds.add_signature (s : Seeds) (pubkey : PublicKey) (signature : Signature) : Seeds :=
  { s with signatures := s.signatures.filter (fun p => p.1 ≠ pubkey) ++ [(pubkey, signature)] }

/-- `Seeds::signature_count` — `self.signatures.len()`. -/
def Seeds.signature_count (s : Seeds) : Nat :=
  s.signatures.length

/-- `Seeds::has_signature` — `self.signatures.iter().any(|(pk, _)| pk == pubkey)`. -/
def Seeds.has_signature (s : Seeds) (pubkey : PublicKey) : Bool :=
  s.signatures.any (fun p => p.1 = pubkey)

/-- `pub struct Spend { note: Note, seeds: Seeds }` -/
structure Spend where
  note : Note
  seeds : Seeds
deriving DecidableEq, Repr

/-- `pub struct Output { recipient: String, value: u64, lock: Lock }` -/
structure Output where
  recipient : String
  value : Nat
  lock : Lock
deriving DecidableEq, Repr

/-- `pub struct Transaction { spends: Vec<Spend>, outputs: Vec<Output> }` -/
structure Transaction where
  spends : List Spend
  outputs : List Output
deriving DecidableEq, Repr

/-- Rust release-mode `iter().sum::<u64>()`: a left fold whose every addition
wraps modulo `2 ^ 64`. -/
def u64sum (l : List Nat) : Nat :=
  l.foldl (fun acc v => (acc + v) % 2 ^ 64) 0

/-- `Transaction::total_input` — sum of all spend note values (`u64` sum). -/
def Transaction.total_input (tx : Transaction) : Nat :=
  u64sum (tx.spends.map (fun s => s.note.value))

/-- `Transaction::total_output` — sum of all output values (`u64` sum). -/
def Transaction.total_output (tx : Transaction) : Nat :=
  u64sum (tx.outputs.map (fun o => o.value))

/-- `Transaction::validate_balance` (lib.rs lines 124–129). -/
def Transaction.validate_balance (tx : Transaction) : Except String Unit :=
  if tx.total_input ≠ tx.total_output then
    .error "Input value does not equal output value"
  else .ok ()

/-- The body of the `validate_signatures` loop for one spend at index `i`:
condition validation first, then the threshold count check, then the
signer-membership scan (the Rust inner `for` returns at the first signer
not contained in `pkh.pubkeys`, which is an existence check). -/
def spendCheck (i : Nat) (spend : Spend) : Except String Unit :=
  match spend.note.lock.pkh.validate with
  | .error e => .error e
  | .ok _ =>
    if spend.seeds.signature_count < spend.note.lock.pkh.threshold then
      .error ("Spend " ++ toString i ++ " has insufficient signatures")
    else if spend.seeds.signatures.any (fun p => p.1 ∉ spend.note.lock.pkh.pubkeys) then
      .error ("Spend " ++ toString i ++ " has invalid signer")
    else .ok ()

/-- The enumerated loop of `Transaction::validate_signatures`, starting at
index `k`: the first failing spend's error is returned. -/
def validateSpendsFrom : Nat → List Spend → Except String Unit
  | _, [] => .ok ()
  | k, spend :: rest =>
    match spendCheck k spend with
    | .error e => .error e
    | .ok _ => validateSpendsFrom (k + 1) rest

/-- `Transaction::validate_signatures` (lib.rs lines 131–147). -/
def Transaction.validate_signatures (tx : Transaction) : Except String Unit :=
  validateSpendsFrom 0 tx.spends

/-! ### Deterministic hashing

`compute_spend_hash` serializes `SigningPayload { spend_index, transaction }`
with `serde_json` (fields in declaration order, sequences in element order)
and hashes the bytes with SHA-256, rendering the digest as lowercase hex.
The serializer and the hash are reproduced below byte-for-byte, so
`compute_spend_hash` is a genuine executable function of its arguments. -/

/-- The lowercase hex digit of a nibble (`serde_json` and the `hex` crate
both use the lowercase alphabet): digits start at code 48, letters at 97. -/
def hexDigitChar (n : Nat) : Char :=
  if n < 10 then Char.ofNat (48 + n) else Char.ofNat (87 + n)

/-- Two lowercase hex characters of a byte. -/
def byteToHex (b : Nat) : List Char :=
  [hexDigitChar (b / 16 % 16), hexDigitChar (b % 16)]

/-- `serde_json`'s escaping of one character inside a JSON string: quote,
backslash, and the control characters below 0x20 (with the short forms for
backspace, tab, newline, form feed, carriage return). -/
def jsonEscapeChar (c : Char) : String :=
  if c = '"' then "\\\""
  else if c = '\\' then "\\\\"
  else if c = '\n' then "\\n"
  else if c = '\r' then "\\r"
  else if c = '\t' then "\\t"
  else if c.toNat = 8 then "\\b"
  else if c.toNat = 12 then "\\f"
  else if c.toNat < 32 then "\\u00" ++ String.mk (byteToHex c.toNat)
  else String.mk [c]

/-- A JSON string literal. -/
def jsonStr (s : String) : String :=
  "\"" ++ String.join (s.toList.map jsonEscapeChar) ++ "\""

/-- A JSON array. -/
def jsonArr (items : List String) : String :=
  "[" ++ String.intercalate "," items ++ "]"

/-- A JSON object; `serde` emits struct fields in declaration order. -/
def jsonObj (fields : List (String × String)) : String :=
  "\x7b" ++ String.intercalate "," (fields.map (fun f => jsonStr f.1 ++ ":" ++ f.2)) ++ "\x7d"

/-- Newtype structs (`PublicKey`, `Signature`) serialize as their inner value. -/
def PublicKey.toJson (pk : PublicKey) : String := jsonStr pk.val

def Signature.toJson (s : Signature) : String := jsonStr s.val

def NoteName.toJson (n : NoteName) : String :=
  jsonObj [("first", jsonStr n.first), ("last", jsonStr n.last)]

def PkhCondition.toJson (c : PkhCondition) : String :=
  jsonObj [("threshold", toString c.threshold),
    ("pubkeys", jsonArr (c.pubkeys.map PublicKey.toJson))]

def Lock.toJson (l : Lock) : String := jsonObj [("pkh", l.pkh.toJson)]

def Note.toJson (n : Note) : String :=
  jsonObj [("name", n.name.toJson), ("value", toString n.value), ("lock", n.lock.toJson)]

/-- A Rust tuple serializes as a two-element JSON array. -/
def Seeds.toJson (s : Seeds) : String :=
  jsonObj [("message_hash", jsonStr s.message_hash),
    ("signatures", jsonArr (s.signatures.map (fun p => jsonArr [p.1.toJson, p.2.toJson])))]

def Spend.toJson (s : Spend) : String :=
  jsonObj [("note", s.note.toJson), ("seeds", s.seeds.toJson)]

def Output.toJson (o : Output) : String :=
  jsonObj [("recipient", jsonStr o.recipient), ("value", toString o.value),
    ("lock", o.lock.toJson)]

def Transaction.toJson (tx : Transaction) : String :=
  jsonObj [("spends", jsonArr (tx.spends.map Spend.toJson)),
    ("outputs", jsonArr (tx.outputs.map Output.toJson))]

/-- `struct SigningPayload { spend_index: usize, transaction: &Transaction }`. -/
def signingPayloadJson (spend_index : Nat) (tx : Transaction) : String :=
  jsonObj [("spend_index", toString spend_index), ("transaction", tx.toJson)]

/-- UTF-8 bytes of one character. -/
def utf8Bytes (c : Char) : List Nat :=
  let n := c.toNat
  if n < 128 then [n]
  else if n < 2048 then [192 + n / 64, 128 + n % 64]
  else if n < 65536 then [224 + n / 4096, 128 + n / 64 % 64, 128 + n % 64]
  else [240 + n / 262144, 128 + n / 4096 % 64, 128 + n / 64 % 64, 128 + n % 64]

/-- UTF-8 bytes of a string (how Rust strings reach the hasher). -/
def strBytes (s : String) : List Nat :=
  (s.toList.map utf8Bytes).flatten

/-- `2 ^ 32`, the modulus of SHA-256's 32-bit word arithmetic. -/
def pow32 : Nat := 4294967296

/-- Right rotation of a 32-bit word. -/
def rotr (n x : Nat) : Nat :=
  (x / 2 ^ n + x % 2 ^ n * 2 ^ (32 - n)) % pow32

/-- SHA-256 σ0. -/
def ssig0 (x : Nat) : Nat := rotr 7 x ^^^ rotr 18 x ^^^ x / 2 ^ 3

/-- SHA-256 σ1. -/
def ssig1 (x : Nat) : Nat := rotr 17 x ^^^ rotr 19 x ^^^ x / 2 ^ 10

/-- SHA-256 Σ0. -/
def bsig0 (x : Nat) : Nat := rotr 2 x ^^^ rotr 13 x ^^^ rotr 22 x

/-- SHA-256 Σ1. -/
def bsig1 (x : Nat) : Nat := rotr 6 x ^^^ rotr 11 x ^^^ rotr 25 x

/-- The 64 SHA-256 round constants, written in decimal. -/
def sha256K : List Nat :=
  [1116352408, 1899447441, 3049323471, 3921009573, 961987163,
   1508970993, 2453635748, 2870763221, 3624381080, 310598401,
   607225278, 1426881987, 1925078388, 2162078206, 2614888103,
   3248222580, 3835390401, 4022224774, 264347078, 604807628,
   770255983, 1249150122, 1555081692, 1996064986, 2554220882,
   2821834349, 2952996808, 3210313671, 3336571891, 3584528711,
   113926993, 338241895, 666307205, 773529912, 1294757372,
   1396182291, 1695183700, 1986661051, 2177026350, 2456956037,
   2730485921, 2820302411, 3259730800, 3345764771, 3516065817,
   3600352804, 4094571909, 275423344, 430227734, 506948616,
   659060556, 883997877, 958139571, 1322822218, 1537002063,
   1747873779, 1955562222, 2024104815, 2227730452, 2361852424,
   2428436474, 2756734187, 3204031479, 3329325298]

/-- The eight SHA-256 initial hash words, written in decimal. -/
def sha256H0 : List Nat :=
  [1779033703, 3144134277, 1013904242, 2773480762,
   1359893119, 2600822924, 528734635, 1541459225]

/-- Big-endian 32-bit words of a byte list. -/
def bytesToWords : List Nat → List Nat
  | b0 :: b1 :: b2 :: b3 :: rest => (((b0 * 256 + b1) * 256 + b2) * 256 + b3) :: bytesToWords rest
  | _ => []

/-- Big-endian 8-byte encoding of the bit length. -/
def be64 (n : Nat) : List Nat :=
  [n / 2 ^ 56 % 256, n / 2 ^ 48 % 256, n / 2 ^ 40 % 256, n / 2 ^ 32 % 256,
   n / 2 ^ 24 % 256, n / 2 ^ 16 % 256, n / 2 ^ 8 % 256, n % 256]

/-- SHA-256 padding: 0x80, zeros to 56 mod 64, then the 64-bit bit length. -/
def sha256Pad (msg : List Nat) : List Nat :=
  let len := msg.length
  let zeros := (120 - (len + 1) % 64) % 64
  msg ++ [0x80] ++ List.replicate zeros 0 ++ be64 (len * 8)

/-- Message-schedule extension: grow the 16 block words to 64. -/
def extendSchedule : Nat → Array Nat → Array Nat
  | 0, w => w
  | fuel + 1, w =>
    let t := w.size
    let next := (ssig1 (w.getD (t - 2) 0) + w.getD (t - 7) 0 +
      ssig0 (w.getD (t - 15) 0) + w.getD (t - 16) 0) % pow32
    extendSchedule fuel (w.push next)

/-- One SHA-256 compression round on the eight-word state. -/
def sha256Round (s : List Nat) (k w : Nat) : List Nat :=
  match s with
  | [a, b, c, d, e, f, g, h] =>
    let ch := (e &&& f) ^^^ ((pow32 - 1 - e) &&& g)
    let temp1 := (h + bsig1 e + ch + k + w) % pow32
    let maj := (a &&& b) ^^^ (a &&& c) ^^^ (b &&& c)
    let temp2 := (bsig0 a + maj) % pow32
    [(temp1 + temp2) % pow32, a, b, c, (d + temp1) % pow32, e, f, g]
  | other => other

/-- Compress one 64-byte block into the running hash state. -/
def compressBlock (hs : List Nat) (block : List Nat) : List Nat :=
  let w := extendSchedule 48 (Array.mk (bytesToWords block))
  let final := (List.zip sha256K w.toList).foldl (fun s kw => sha256Round s kw.1 kw.2) hs
  List.zipWith (fun a b => (a + b) % pow32) hs final

/-- Split the padded message into 64-byte blocks (the fuel bounds the number
of steps; one block consumes 64 bytes, so the byte count is ample fuel). -/
def sha256Chunks : Nat → List Nat → List (List Nat)
  | 0, _ => []
  | _, [] => []
  | fuel + 1, l => l.take 64 :: sha256Chunks fuel (l.drop 64)

/-- SHA-256 of a byte list, rendered as lowercase hex (the `sha2` + `hex`
crates' behavior). -/
def sha256Hex (msg : List Nat) : String :=
  let padded := sha256Pad msg
  let digest := (sha256Chunks padded.length padded).foldl compressBlock sha256H0
  String.mk ((digest.map (fun w =>
    (be64 w).drop 4)).flatten.map byteToHex).flatten

/-- The signature-clearing pass of `compute_spend_hash`: every spend of the
copy has its signature list cleared (the `message_hash` field stays). -/
def clearSignatures (tx : Transaction) : Transaction :=
  { tx with spends := tx.spends.map (fun s =>
      { s with seeds := { s.seeds with signatures := [] } }) }

/-- `compute_spend_hash` (lib.rs lines 160–177): clear all signatures,
serialize `(spend_index, transaction_copy)`, SHA-256, lowercase hex. -/
def compute_spend_hash (spend_index : Nat) (tx : Transaction) : String :=
  sha256Hex (strBytes (signingPayloadJson spend_index (clearSignatures tx)))

/-! ### Signing status -/

/-- `pub struct SigningStatus` (lib.rs lines 183–190). -/
structure SigningStatus where
  spend_index : Nat
  threshold : Nat
  signed : List PublicKey
  pending : List PublicKey
  complete : Bool
deriving DecidableEq, Repr

/-- The one-pass partition loop of `signing_status`: each pubkey of the
condition goes to `signed` when a signature is recorded for it, otherwise to
`pending`, preserving the condition's order. -/
def partitionKeys (seeds : Seeds) : List PublicKey → List PublicKey × List PublicKey
  | [] => ([], [])
  | pk :: rest =>
    let sp := partitionKeys seeds rest
    if seeds.has_signature pk then (pk :: sp.1, sp.2) else (sp.1, pk :: sp.2)

/-- `signing_status` (lib.rs lines 192–216).  The Rust function indexes
`tx.spends[spend_index]` unconditionally and would panic out of bounds; the
embedding returns `none` there (every caller in the source guards the index
first). -/
def signing_status (spend_index : Nat) (tx : Transaction) : Option SigningStatus :=
  match tx.spends[spend_index]? with
  | none => none
  | some spend =>
    let pkh := spend.note.lock.pkh
    let sp := partitionKeys spend.seeds pkh.pubkeys
    some { spend_index := spend_index, threshold := pkh.threshold,
           signed := sp.1, pending := sp.2,
           complete := sp.1.length ≥ pkh.threshold }

/-! ### Boundary API

The WASM functions parse their JSON arguments and serialize their results;
that transport shell is external.  The embedded operations act on the parsed
values directly. -/

/-- The spend-construction loop of `build_transaction`: for the note at
overall index `i`, validate its condition, then hash against a transaction
holding only the outputs (`dummy_tx` has no spends). -/
def buildSpends (outputs : List Output) : Nat → List Note → Except String (List Spend)
  | _, [] => .ok []
  | i, note :: rest =>
    match note.lock.pkh.validate with
    | .error e => .error e
    | .ok _ =>
      let dummy : Transaction := { spends := [], outputs := outputs }
      let hash := compute_spend_hash i dummy
      match buildSpends outputs (i + 1) rest with
      | .error e => .error e
      | .ok spends => .ok ({ note := note, seeds := Seeds.new hash } :: spends)

/-- `build_transaction` (lib.rs lines 222–251). -/
def build_transaction (notes : List Note) (outputs : List Output) :
    Except String Transaction :=
  match buildSpends outputs 0 notes with
  | .error e => .error e
  | .ok spends =>
    let tx : Transaction := { spends := spends, outputs := outputs }
    match tx.validate_balance with
    | .error e => .error e
    | .ok _ => .ok tx

/-- `get_spend_hash` (lib.rs lines 254–263): the bounds check
`spend_index >= tx.spends.len()` is the `none` case of the lookup. -/
def get_spend_hash (tx : Transaction) (spend_index : Nat) : Except String String :=
  match tx.spends[spend_index]? with
  | none => .error "Spend index out of bounds"
  | some s => .ok s.seeds.message_hash

/-- `add_signature` (lib.rs lines 266–291): `get_mut(spend_index)` fails with
the index error; an unauthorized pubkey fails; otherwise the spend's seeds
get the add-or-replace update and the updated transaction is returned. -/
def add_signature (tx : Transaction) (spend_index : Nat) (pubkey signature : String) :
    Except String Transaction :=
  let pk : PublicKey := { val := pubkey }
  match tx.spends[spend_index]? with
  | none => .error "Invalid spend index"
  | some spend =>
    if pk ∈ spend.note.lock.pkh.pubkeys then
      let spend' : Spend :=
        { spend with seeds := spend.seeds.add_signature pk { val := signature } }
      .ok { tx with spends := tx.spends.set spend_index spend' }
    else .error "Public key not allowed for this spend"

/-- `get_spend_signing_status` (lib.rs lines 294–307): the guard
`spend_index >= tx.spends.len()` is exactly the `none` case of
`signing_status`. -/
def get_spend_signing_status (tx : Transaction) (spend_index : Nat) :
    Except String SigningStatus :=
  match signing_status spend_index tx with
  | none => .error "Spend index out of bounds"
  | some st => .ok st

/-- `validate_transaction` (lib.rs lines 310–318). -/
def validate_transaction (tx : Transaction) : Except String String :=
  match tx.validate_balance with
  | .error e => .error e
  | .ok _ =>
    match tx.validate_signatures with
    | .error e => .error e
    | .ok _ => .ok "Transaction is valid and ready for broadcast"

/-! ### Apparatus for the claims -/

/-- The `Seeds` values producible through the public interface: created empty
with a hash (as `build_transaction` does via `Seeds::new`) and mutated only by
`Seeds::add_signature` (as the boundary `add_signature` does). -/
inductive ReachableSeeds : Seeds → Prop
  | new (h : String) : ReachableSeeds (Seeds.new h)
  | step {s : Seeds} (pk : PublicKey) (sig : Signature) :
      ReachableSeeds s → ReachableSeeds (s.add_signature pk sig)

/-- A sequence of boundary `add_signature` calls, each feeding the returned
transaction to the next; the whole sequence fails at the first failing call. -/
def applyAddSignatures : Transaction → List (Nat × String × String) → Except String Transaction
  | tx, [] => .ok tx
  | tx, c :: rest =>
    match add_signature tx c.1 c.2.1 c.2.2 with
    | .error e => .error e
    | .ok tx' => applyAddSignatures tx' rest

/-- The stored signing hash of spend `i` of a build result (`none` when the
build failed or the index is absent). -/
def storedHash (r : Except String Transaction) (i : Nat) : Option String :=
  match r with
  | .error _ => none
  | .ok tx => (tx.spends[i]?).map (fun s => s.seeds.message_hash)

/-- The notes of a build result's spends (`none` when the build failed). -/
def spendNotes (r : Except String Transaction) : Option (List Note) :=
  match r with
  | .error _ => none
  | .ok tx => some (tx.spends.map (fun s => s.note))

/-! Concrete inputs used by counterexamples and witnesses. -/

def keyA : PublicKey := { val := "A" }

def keyB : PublicKey := { val := "B" }

def lockAB : Lock := { pkh := { threshold := 2, pubkeys := [keyA, keyB] } }

def cexNote1 : Note := { name := { first := "n1", last := "x" }, value := 100, lock := lockAB }

def cexNote2 : Note := { name := { first := "n2", last := "x" }, value := 100, lock := lockAB }

def cexOuts : List Output := [{ recipient := "r", value := 100, lock := lockAB }]

/-- The outputs-only transaction the build-time hash is computed against. -/
def cexDummy : Transaction := { spends := [], outputs := cexOuts }

/-- The transaction `build_transaction [cexNote1] cexOuts` constructs. -/
def cexTx1 : Transaction :=
  { spends := [{ note := cexNote1, seeds := Seeds.new (compute_spend_hash 0 cexDummy) }],
    outputs := cexOuts }

/-- The transaction `build_transaction [cexNote2] cexOuts` constructs. -/
def cexTx2 : Transaction :=
  { spends := [{ note := cexNote2, seeds := Seeds.new (compute_spend_hash 0 cexDummy) }],
    outputs := cexOuts }

/-- A small concrete transaction with one signature recorded, used to witness
the status and hash theorems at a concrete input. -/
def wSpend : Spend :=
  { note := cexNote1,
    seeds := { message_hash := "h", signatures := [(keyA, { val := "sigA" })] } }

def wTx : Transaction := { spends := [wSpend], outputs := cexOuts }

/-- The spend of `wTx` after key B also signs. -/
def wSpendSigned : Spend :=
  { note := cexNote1,
    seeds := { message_hash := "h",
               signatures := [(keyA, { val := "sigA" }), (keyB, { val := "sigB" })] } }

/-- `wTx` after a successful `add_signature` call from key B. -/
def wTxSigned : Transaction := { spends := [wSpendSigned], outputs := cexOuts }

/-- A structurally invalid lock condition (threshold 0). -/
def badLock : Lock := { pkh := { threshold := 0, pubkeys := [] } }

/-- A spend whose lock condition is structurally invalid (threshold 0), used
to observe how `validate_signatures` propagates condition failures. -/
def badCondSpend : Spend :=
  { note := { name := { first := "bad", last := "x" }, value := 5, lock := badLock },
    seeds := Seeds.new "h" }

/-- A transaction whose condition failure occurs at spend index 0. -/
def cexCondTx0 : Transaction := { spends := [badCondSpend], outputs := [] }

/-- A transaction whose first (and only) condition failure occurs at spend
index 1, after a fully satisfied spend at index 0. -/
def cexCondTx1 : Transaction := { spends := [wSpendSigned, badCondSpend], outputs := [] }

/-- A transaction whose exact spend-value total overflows `u64`: two spends
of `2 ^ 63` against no outputs. -/
def overflowTx : Transaction :=
  { spends :=
      [{ note := { name := { first := "o1", last := "x" }, value := 2 ^ 63, lock := lockAB },
         seeds := Seeds.new "h1" },
       { note := { name := { first := "o2", last := "x" }, value := 2 ^ 63, lock := lockAB },
         seeds := Seeds.new "h2" }],
    outputs := [] }

/-! ## Lemmas -/

/-- The duplicate scan reports `true` exactly when the remaining keys repeat
among themselves or revisit a key already seen. -/
theorem dupScan_eq_true_iff (seen l : List PublicKey) :
    dupScan seen l = true ↔ ¬ l.Nodup ∨ ∃ x ∈ l, x ∈ seen := by
  induction l generalizing seen with
  | nil => simp [dupScan]
  | cons pk rest ih =>
    by_cases hpk : pk ∈ seen
    · rw [show dupScan seen (pk :: rest) = true from by rw [dupScan, if_pos hpk]]
      exact iff_of_true rfl (Or.inr ⟨pk, List.mem_cons_self pk rest, hpk⟩)
    · rw [show dupScan seen (pk :: rest) = dupScan (pk :: seen) rest from by
        rw [dupScan, if_neg hpk]]
      rw [ih (pk :: seen)]
      simp only [List.nodup_cons, List.mem_cons]
      constructor
      · rintro (hnd | ⟨x, hx, hxpk | hxseen⟩)
        · exact Or.inl fun hc => hnd hc.2
        · exact Or.inl fun hc => hc.1 (hxpk ▸ hx)
        · exact Or.inr ⟨x, Or.inr hx, hxseen⟩
      · rintro (hnd | ⟨x, hx0 | hx, hxseen⟩)
        · by_cases hmem : pk ∈ rest
          · exact Or.inr ⟨pk, hmem, Or.inl rfl⟩
          · exact Or.inl fun hc => hnd ⟨hmem, hc⟩
        · exact absurd (hx0 ▸ hxseen) hpk
        · exact Or.inr ⟨x, hx, Or.inr hxseen⟩

/-- With nothing seen yet, the duplicate scan is exactly duplicate detection. -/
theorem dupScan_nil_iff (l : List PublicKey) : dupScan [] l = true ↔ ¬ l.Nodup := by
  rw [dupScan_eq_true_iff]; simp

/-- Claim C3: `PkhCondition::validate` is a pure predicate (it returns a
result and leaves the condition untouched, so the `pubkeys` sequence is never
reordered or deduplicated) and fails exactly as follows: `InvalidThreshold`
("Threshold must be >= 1") when `threshold == 0`; otherwise
`ThresholdExceedsKeys` ("Threshold exceeds number of pubkeys") when
`threshold > |pubkeys|`; otherwise `DuplicatePublicKey` ("Duplicate public
key in multisig set") when some key value repeats; otherwise it succeeds. -/
theorem validate_error_characterization (c : PkhCondition) :
    (c.validate = .error "Threshold must be >= 1" ↔ c.threshold = 0) ∧
    (c.validate = .error "Threshold exceeds number of pubkeys" ↔
      c.threshold ≠ 0 ∧ c.pubkeys.length < c.threshold) ∧
    (c.validate = .error "Duplicate public key in multisig set" ↔
      c.threshold ≠ 0 ∧ c.threshold ≤ c.pubkeys.length ∧ ¬ c.pubkeys.Nodup) ∧
    (c.validate = .ok () ↔
      c.threshold ≠ 0 ∧ c.threshold ≤ c.pubkeys.length ∧ c.pubkeys.Nodup) := by
  have e12 : ("Threshold must be >= 1" : String) ≠ "Threshold exceeds number of pubkeys" := by
    decide
  have e13 : ("Threshold must be >= 1" : String) ≠ "Duplicate public key in multisig set" := by
    decide
  have e23 : ("Threshold exceeds number of pubkeys" : String) ≠
      "Duplicate public key in multisig set" := by decide
  unfold PkhCondition.validate
  by_cases h1 : c.threshold = 0
  · rw [if_pos h1]
    exact ⟨iff_of_true rfl h1,
      iff_of_false (fun h => e12 (Except.error.inj h)) (fun h => h.1 h1),
      iff_of_false (fun h => e13 (Except.error.inj h)) (fun h => h.1 h1),
      iff_of_false (fun h => Except.noConfusion h) (fun h => h.1 h1)⟩
  · rw [if_neg h1]
    by_cases h2 : c.threshold > c.pubkeys.length
    · rw [if_pos h2]
      exact ⟨iff_of_false (fun h => e12 (Except.error.inj h).symm) (fun h => h1 h),
        iff_of_true rfl ⟨h1, h2⟩,
        iff_of_false (fun h => e23 (Except.error.inj h)) (fun h => absurd h2 (not_lt.mpr h.2.1)),
        iff_of_false (fun h => Except.noConfusion h) (fun h => absurd h2 (not_lt.mpr h.2.1))⟩
    · rw [if_neg h2]
      by_cases h3 : dupScan [] c.pubkeys = true
      · rw [if_pos h3]
        have hnd : ¬ c.pubkeys.Nodup := (dupScan_nil_iff c.pubkeys).mp h3
        exact ⟨iff_of_false (fun h => e13 (Except.error.inj h).symm) (fun h => h1 h),
          iff_of_false (fun h => e23 (Except.error.inj h).symm) (fun h => h2 h.2),
          iff_of_true rfl ⟨h1, not_lt.mp h2, hnd⟩,
          iff_of_false (fun h => Except.noConfusion h) (fun h => hnd h.2.2)⟩
      · rw [if_neg h3]
        have hnd : c.pubkeys.Nodup := by
          by_contra hc
          exact h3 ((dupScan_nil_iff c.pubkeys).mpr hc)
        exact ⟨iff_of_false (fun h => Except.noConfusion h) (fun h => h1 h),
          iff_of_false (fun h => Except.noConfusion h) (fun h => h2 h.2),
          iff_of_false (fun h => Except.noConfusion h) (fun h => h.2.2 hnd),
          iff_of_true rfl ⟨h1, not_lt.mp h2, hnd⟩⟩

/-- Claim C8: for every transaction and every spend index at or beyond the
number of spends, `get_spend_hash`, `add_signature` and
`get_spend_signing_status` each return their `IndexOutOfBounds` error (the
embedded operations are total functions, so no panic and no default value is
possible). -/
theorem index_out_of_bounds_errors (tx : Transaction) (i : Nat)
    (pubkey signature : String) (h : tx.spends.length ≤ i) :
    get_spend_hash tx i = .error "Spend index out of bounds" ∧
    add_signature tx i pubkey signature = .error "Invalid spend index" ∧
    get_spend_signing_status tx i = .error "Spend index out of bounds" := by
  have hnone : tx.spends[i]? = none := List.getElem?_eq_none h
  refine ⟨?_, ?_, ?_⟩ <;>
    simp [get_spend_hash, add_signature, get_spend_signing_status, signing_status, hnone]

/-- Witness for C8 at a concrete input: the empty transaction with index 0. -/
theorem index_out_of_bounds_errors_witness :
    get_spend_hash { spends := [], outputs := [] } 0 = .error "Spend index out of bounds" ∧
    add_signature { spends := [], outputs := [] } 0 "A" "s" = .error "Invalid spend index" ∧
    get_spend_signing_status { spends := [], outputs := [] } 0 =
      .error "Spend index out of bounds" :=
  index_out_of_bounds_errors { spends := [], outputs := [] } 0 "A" "s" (by decide)

/-- A left fold of wrapping additions started at a reduced accumulator is the
plain sum, reduced. -/
theorem u64sum_foldl (l : List Nat) (a : Nat) :
    l.foldl (fun acc v => (acc + v) % 2 ^ 64) (a % 2 ^ 64) = (a + l.sum) % 2 ^ 64 := by
  induction l generalizing a with
  | nil => simp
  | cons v tl ih =>
    simp only [List.foldl_cons, List.sum_cons]
    calc tl.foldl (fun acc w => (acc + w) % 2 ^ 64) ((a % 2 ^ 64 + v) % 2 ^ 64)
        = tl.foldl (fun acc w => (acc + w) % 2 ^ 64) ((a + v) % 2 ^ 64) := by
          rw [Nat.mod_add_mod]
      _ = (a + v + tl.sum) % 2 ^ 64 := ih (a + v)
      _ = (a + (v + tl.sum)) % 2 ^ 64 := by rw [Nat.add_assoc]

/-- `u64sum` is the plain sum modulo `2 ^ 64`. -/
theorem u64sum_eq_sum_mod (l : List Nat) : u64sum l = l.sum % 2 ^ 64 := by
  have := u64sum_foldl l 0
  simpa [u64sum] using this

/-- Claim C10: `total_input` and `total_output` sum `u64` values with
wrapping (modulo `2 ^ 64`) arithmetic, so `validate_balance` compares the two
sums modulo `2 ^ 64`; `overflowTx` has exact spend total `2 ^ 64` and exact
output total `0`, which differ by `2 ^ 64`, yet `validate_balance` accepts
it. -/
theorem balance_compares_sums_mod_u64 :
    (∀ l : List Nat, u64sum l = l.sum % 2 ^ 64) ∧
    overflowTx.validate_balance = .ok () ∧
    (overflowTx.spends.map fun s => s.note.value).sum ≠
      (overflowTx.outputs.map fun o => o.value).sum ∧
    (overflowTx.spends.map fun s => s.note.value).sum =
      (overflowTx.outputs.map fun o => o.value).sum + 2 ^ 64 := by
  exact ⟨u64sum_eq_sum_mod, rfl, by decide, by decide⟩

/-- Claim C4: for a transaction and a valid spend index, `add_signature`
fails with `UnauthorizedSigner` ("Public key not allowed for this spend")
when the pubkey is not among that spend's permitted keys; otherwise it
removes any existing entry for that pubkey and appends `(pubkey, signature)`
at the end of that spend's signature list, leaving the spend's note, its
`message_hash`, every other spend, and the outputs unchanged — so the last
submission for a given key wins (filtering the result by the key yields
exactly the new pair), entries for other keys are preserved verbatim, and
the re-submitted key sits at the end of the sequence. -/
theorem add_signature_characterization (tx : Transaction) (i : Nat) (spend : Spend)
    (pubkey signature : String) (hget : tx.spends[i]? = some spend) :
    (PublicKey.mk pubkey ∉ spend.note.lock.pkh.pubkeys →
      add_signature tx i pubkey signature = .error "Public key not allowed for this spend") ∧
    (PublicKey.mk pubkey ∈ spend.note.lock.pkh.pubkeys →
      ∃ tx', add_signature tx i pubkey signature = .ok tx' ∧
        tx'.outputs = tx.outputs ∧
        tx'.spends.length = tx.spends.length ∧
        (∀ j, j ≠ i → tx'.spends[j]? = tx.spends[j]?) ∧
        ∃ spend', tx'.spends[i]? = some spend' ∧
          spend'.note = spend.note ∧
          spend'.seeds.message_hash = spend.seeds.message_hash ∧
          spend'.seeds.signatures =
            spend.seeds.signatures.filter (fun p => p.1 ≠ PublicKey.mk pubkey) ++
              [(PublicKey.mk pubkey, Signature.mk signature)] ∧
          spend'.seeds.signatures.filter (fun p => p.1 = PublicKey.mk pubkey) =
            [(PublicKey.mk pubkey, Signature.mk signature)] ∧
          spend'.seeds.signatures.filter (fun p => p.1 ≠ PublicKey.mk pubkey) =
            spend.seeds.signatures.filter (fun p => p.1 ≠ PublicKey.mk pubkey) ∧
          spend'.seeds.signatures.getLast? =
            some (PublicKey.mk pubkey, Signature.mk signature)) := by
  have hlt : i < tx.spends.length := (List.getElem?_eq_some.mp hget).1
  constructor
  · intro hnot
    simp only [add_signature, hget, if_neg hnot]
  · intro hmem
    have hfilters : (spend.seeds.add_signature (PublicKey.mk pubkey)
          (Signature.mk signature)).signatures.filter
            (fun p => p.1 = PublicKey.mk pubkey) =
          [(PublicKey.mk pubkey, Signature.mk signature)] ∧
        (spend.seeds.add_signature (PublicKey.mk pubkey)
          (Signature.mk signature)).signatures.filter
            (fun p => p.1 ≠ PublicKey.mk pubkey) =
          spend.seeds.signatures.filter (fun p => p.1 ≠ PublicKey.mk pubkey) := by
      constructor
      · rw [Seeds.add_signature, List.filter_append, List.filter_filter]
        have h1 : List.filter
            (fun a => decide (a.1 = PublicKey.mk pubkey) && decide (a.1 ≠ PublicKey.mk pubkey))
            spend.seeds.signatures = [] := by
          rw [List.filter_eq_nil_iff]
          intro a _
          simp only [Bool.and_eq_true, decide_eq_true_iff]
          rintro ⟨h, hne⟩
          exact hne h
        rw [h1]
        simp
      · rw [Seeds.add_signature, List.filter_append, List.filter_filter]
        have h2 : List.filter
            (fun a => decide (a.1 ≠ PublicKey.mk pubkey) && decide (a.1 ≠ PublicKey.mk pubkey))
            spend.seeds.signatures =
            spend.seeds.signatures.filter (fun p => p.1 ≠ PublicKey.mk pubkey) := by
          congr 1
          funext a
          rw [Bool.and_self]
        have h3 : List.filter (fun p => decide (p.1 ≠ PublicKey.mk pubkey))
            [(PublicKey.mk pubkey, Signature.mk signature)] = [] := by
          simp
        rw [h2, h3, List.append_nil]
    have hstep : add_signature tx i pubkey signature = .ok
        { spends := tx.spends.set i
            { note := spend.note,
              seeds := spend.seeds.add_signature (PublicKey.mk pubkey)
                (Signature.mk signature) },
          outputs := tx.outputs } := by
      simp only [add_signature, hget, if_pos hmem]
    refine ⟨_, hstep, rfl, List.length_set _ _ _, ?_, ?_⟩
    · intro j hj
      exact (List.getElem?_set.trans (if_neg (fun hc => hj hc.symm)) :
        (tx.spends.set i _)[j]? = tx.spends[j]?)
    · refine ⟨_, (List.getElem?_set_self hlt :
          (tx.spends.set i _)[i]? = some _), rfl, rfl, rfl, hfilters.1, hfilters.2, ?_⟩
      exact (List.getLast?_concat _ :
        (spend.seeds.signatures.filter _ ++ [(PublicKey.mk pubkey, Signature.mk signature)]).getLast?
          = _)

/-- Witness for C4 at a concrete input: key "D" is not permitted for the
spend of `wTx`, so submitting it fails with the unauthorized-signer error. -/
theorem add_signature_characterization_witness :
    add_signature wTx 0 "D" "s" = .error "Public key not allowed for this spend" :=
  (add_signature_characterization wTx 0 wSpend "D" "s" rfl).1 (by decide)

/-- Every `Seeds` value reachable through the public interface has pairwise
distinct signature keys: `Seeds::new` starts empty and
`Seeds::add_signature` removes the key before appending it. -/
theorem reachableSeeds_keys_nodup (s : Seeds) (h : ReachableSeeds s) :
    (s.signatures.map Prod.fst).Nodup := by
  induction h with
  | new h0 => simp [Seeds.new]
  | step pk sig hr ih =>
    simp only [Seeds.add_signature, List.map_append]
    rw [List.nodup_append]
    refine ⟨List.Nodup.sublist (List.Sublist.map _ (List.filter_sublist _)) ih,
      List.nodup_singleton _, ?_⟩
    intro a ha ha'
    simp only [List.map_cons, List.map_nil, List.mem_singleton] at ha'
    subst ha'
    obtain ⟨p, hp, hpa⟩ := List.mem_map.mp ha
    have := (List.mem_filter.mp hp).2
    rw [decide_eq_true_iff] at this
    exact this (hpa ▸ rfl)

/-- Claim C5: for every `Seeds` (SigningRecord) value reachable at the public
interface — created by `Seeds::new` and mutated only by
`Seeds::add_signature`, as `build_transaction` and the boundary
`add_signature` do — `signature_count()` equals the number of distinct
public keys among the recorded signatures. -/
theorem signature_count_is_distinct_count (s : Seeds) (h : ReachableSeeds s) :
    s.signature_count = (s.signatures.map Prod.fst).dedup.length := by
  have hnd := reachableSeeds_keys_nodup s h
  rw [Seeds.signature_count, List.dedup_eq_self.mpr hnd, List.length_map]

/-- Witness for C5 at a concrete input: a record built by one `new` and one
`add_signature` step. -/
theorem signature_count_is_distinct_count_witness :
    ((Seeds.new "h").add_signature keyA { val := "x" }).signature_count =
      (((Seeds.new "h").add_signature keyA { val := "x" }).signatures.map
        Prod.fst).dedup.length :=
  signature_count_is_distinct_count _
    (ReachableSeeds.step keyA { val := "x" } (ReachableSeeds.new "h"))

/-- One successful boundary `add_signature` call changes no spend's stored
`message_hash` and no index's presence, so every `get_spend_hash` result is
unchanged. -/
theorem get_spend_hash_eq_of_lookup (tx₁ tx₂ : Transaction) (i : Nat)
    (h : (tx₁.spends[i]?).map (fun s => s.seeds.message_hash) =
      (tx₂.spends[i]?).map (fun s => s.seeds.message_hash)) :
    get_spend_hash tx₁ i = get_spend_hash tx₂ i := by
  unfold get_spend_hash
  cases h1 : tx₁.spends[i]? with
  | none =>
    cases h2 : tx₂.spends[i]? with
    | none => rfl
    | some t => rw [h1, h2] at h; simp at h
  | some s =>
    cases h2 : tx₂.spends[i]? with
    | none => rw [h1, h2] at h; simp at h
    | some t =>
      rw [h1, h2] at h
      simp only [Option.map_some'] at h
      show Except.ok s.seeds.message_hash = Except.ok t.seeds.message_hash
      rw [Option.some.inj h]

theorem add_signature_preserves_hashes (tx tx' : Transaction) (j : Nat) (pk sig : String)
    (h : add_signature tx j pk sig = .ok tx') (i : Nat) :
    get_spend_hash tx' i = get_spend_hash tx i := by
  cases hget : tx.spends[j]? with
  | none =>
    simp only [add_signature, hget] at h
    exact Except.noConfusion h
  | some spend =>
    by_cases hmem : PublicKey.mk pk ∈ spend.note.lock.pkh.pubkeys
    · simp only [add_signature, hget, if_pos hmem] at h
      have hlt : j < tx.spends.length := (List.getElem?_eq_some.mp hget).1
      have h' := Except.ok.inj h
      subst h'
      apply get_spend_hash_eq_of_lookup
      show (tx.spends.set j _)[i]?.map _ = _
      by_cases hij : j = i
      · subst hij
        rw [List.getElem?_set_self hlt, hget]
        rfl
      · rw [List.getElem?_set, if_neg hij]
    · simp only [add_signature, hget, if_neg hmem] at h
      exact Except.noConfusion h

/-- Claim C2: for every transaction, the string `get_spend_hash` returns at
any index is invariant under any sequence of successful boundary
`add_signature` calls: fetching the hash before and after the whole sequence
yields identical results. -/
theorem get_spend_hash_invariant_under_signing (tx tx' : Transaction)
    (calls : List (Nat × String × String))
    (h : applyAddSignatures tx calls = .ok tx') (i : Nat) :
    get_spend_hash tx' i = get_spend_hash tx i := by
  induction calls generalizing tx with
  | nil =>
    simp only [applyAddSignatures] at h
    rw [Except.ok.inj h]
  | cons c rest ih =>
    simp only [applyAddSignatures] at h
    cases hstep : add_signature tx c.1 c.2.1 c.2.2 with
    | error e => rw [hstep] at h; exact absurd h (by simp)
    | ok txm =>
      rw [hstep] at h
      rw [ih txm h, add_signature_preserves_hashes tx txm c.1 c.2.1 c.2.2 hstep i]

/-- Witness for C2 at a concrete input: one successful signing call on `wTx`
leaves the fetched hash unchanged. -/
theorem get_spend_hash_invariant_witness :
    get_spend_hash wTxSigned 0 = get_spend_hash wTx 0 :=
  get_spend_hash_invariant_under_signing wTx wTxSigned [(0, "B", "sigB")] (by rfl) 0

/-- The one-pass partition of `signing_status` is the pair of key filters. -/
theorem partitionKeys_eq_filters (seeds : Seeds) (l : List PublicKey) :
    partitionKeys seeds l =
      (l.filter (fun pk => seeds.has_signature pk),
       l.filter (fun pk => !seeds.has_signature pk)) := by
  induction l with
  | nil => rfl
  | cons pk rest ih =>
    simp only [partitionKeys, ih, List.filter_cons]
    cases hs : seeds.has_signature pk <;> simp [hs]

/-- Claim C9: for every transaction and valid spend index, the signing
status is a pure projection (the embedded `get_spend_signing_status` returns
only a status and leaves the transaction untouched) that partitions the
condition's pubkeys into `signed` (keys with a recorded signature) and
`pending` (keys without), each a sublist of the condition's `pubkeys` (so the
original key order is preserved), with no key in both, their union exactly
the `pubkeys` sequence (membership-wise, and `signed ++ pending` is a
permutation of it), and `complete` true iff `|signed| ≥ threshold`. -/
theorem signing_status_characterization (tx : Transaction) (i : Nat) (spend : Spend)
    (hget : tx.spends[i]? = some spend) :
    ∃ st, get_spend_signing_status tx i = .ok st ∧
      st.spend_index = i ∧
      st.threshold = spend.note.lock.pkh.threshold ∧
      st.signed = spend.note.lock.pkh.pubkeys.filter (fun pk => spend.seeds.has_signature pk) ∧
      st.pending = spend.note.lock.pkh.pubkeys.filter (fun pk => !spend.seeds.has_signature pk) ∧
      st.signed.Sublist spend.note.lock.pkh.pubkeys ∧
      st.pending.Sublist spend.note.lock.pkh.pubkeys ∧
      (∀ pk, pk ∈ st.signed → pk ∉ st.pending) ∧
      (∀ pk, pk ∈ spend.note.lock.pkh.pubkeys ↔ pk ∈ st.signed ∨ pk ∈ st.pending) ∧
      (st.signed ++ st.pending).Perm spend.note.lock.pkh.pubkeys ∧
      (st.complete = true ↔ spend.note.lock.pkh.threshold ≤ st.signed.length) := by
  have hok : get_spend_signing_status tx i = .ok
      { spend_index := i,
        threshold := spend.note.lock.pkh.threshold,
        signed := spend.note.lock.pkh.pubkeys.filter (fun pk => spend.seeds.has_signature pk),
        pending := spend.note.lock.pkh.pubkeys.filter (fun pk => !spend.seeds.has_signature pk),
        complete := decide ((spend.note.lock.pkh.pubkeys.filter
          (fun pk => spend.seeds.has_signature pk)).length ≥ spend.note.lock.pkh.threshold) } := by
    simp only [get_spend_signing_status, signing_status, hget, partitionKeys_eq_filters]
  refine ⟨_, hok, rfl, rfl, rfl, rfl, List.filter_sublist _, List.filter_sublist _,
    ?_, ?_, List.filter_append_perm _ _, decide_eq_true_iff⟩
  · intro pk hs hp
    have h1 := (List.mem_filter.mp hs).2
    have h2 := (List.mem_filter.mp hp).2
    rw [h1] at h2
    exact Bool.false_ne_true (by simpa using h2.symm)
  · intro pk
    constructor
    · intro hmem
      cases hs : spend.seeds.has_signature pk with
      | false => exact Or.inr (List.mem_filter.mpr ⟨hmem, by rw [hs]; rfl⟩)
      | true => exact Or.inl (List.mem_filter.mpr ⟨hmem, hs⟩)
    · rintro (h | h)
      · exact (List.mem_filter.mp h).1
      · exact (List.mem_filter.mp h).1

/-- Witness for C9 at a concrete input: the status of `wTx`'s single spend
is produced successfully. -/
theorem signing_status_characterization_witness :
    ∃ st, get_spend_signing_status wTx 0 = .ok st := by
  obtain ⟨st, hok, -⟩ := signing_status_characterization wTx 0 wSpend rfl
  exact ⟨st, hok⟩

/-- `validateSpendsFrom` succeeds exactly when every spend of the suffix
passes its per-spend check (indices offset by the start index). -/
theorem validateSpendsFrom_ok_iff (k : Nat) (l : List Spend) :
    validateSpendsFrom k l = .ok () ↔
      ∀ i spend, l[i]? = some spend → spendCheck (k + i) spend = .ok () := by
  induction l generalizing k with
  | nil => simp [validateSpendsFrom]
  | cons s rest ih =>
    simp only [validateSpendsFrom]
    cases hc : spendCheck k s with
    | error e =>
      constructor
      · intro h
        exact Except.noConfusion h
      · intro h
        have h0 := h 0 s List.getElem?_cons_zero
        rw [Nat.add_zero, hc] at h0
        exact Except.noConfusion h0
    | ok u =>
      cases u
      rw [ih (k + 1)]
      constructor
      · intro h i spend hget
        cases i with
        | zero =>
          rw [List.getElem?_cons_zero] at hget
          have hs := Option.some.inj hget
          subst hs
          rw [Nat.add_zero]
          exact hc
        | succ n =>
          rw [List.getElem?_cons_succ] at hget
          have := h n spend hget
          rw [show k + (n + 1) = k + 1 + n from by omega]
          exact this
      · intro h i spend hget
        have := h (i + 1) spend (by rw [List.getElem?_cons_succ]; exact hget)
        rw [show k + 1 + i = k + (i + 1) from by omega]
        exact this

/-- `validateSpendsFrom` returns an error exactly when some spend of the
suffix fails its check with that error while all earlier spends pass. -/
theorem validateSpendsFrom_error_iff (k : Nat) (l : List Spend) (e : String) :
    validateSpendsFrom k l = .error e ↔
      ∃ i spend, l[i]? = some spend ∧ spendCheck (k + i) spend = .error e ∧
        ∀ j spendj, j < i → l[j]? = some spendj → spendCheck (k + j) spendj = .ok () := by
  induction l generalizing k with
  | nil => simp [validateSpendsFrom]
  | cons s rest ih =>
    simp only [validateSpendsFrom]
    cases hc : spendCheck k s with
    | error e0 =>
      constructor
      · intro h
        have he : e0 = e := Except.error.inj h
        subst he
        exact ⟨0, s, List.getElem?_cons_zero, by rw [Nat.add_zero]; exact hc,
          fun j spendj hj _ => absurd hj (Nat.not_lt_zero j)⟩
      · rintro ⟨i, spend, hget, herr, hprior⟩
        cases i with
        | zero =>
          rw [List.getElem?_cons_zero] at hget
          have hs := Option.some.inj hget
          subst hs
          rw [Nat.add_zero, hc] at herr
          exact herr
        | succ n =>
          have h0 := hprior 0 s (Nat.succ_pos n) List.getElem?_cons_zero
          rw [Nat.add_zero, hc] at h0
          exact Except.noConfusion h0
    | ok u =>
      cases u
      rw [ih (k + 1)]
      constructor
      · rintro ⟨i, spend, hget, herr, hprior⟩
        refine ⟨i + 1, spend, by rw [List.getElem?_cons_succ]; exact hget,
          by rw [show k + (i + 1) = k + 1 + i from by omega]; exact herr, ?_⟩
        intro j spendj hj hgetj
        cases j with
        | zero =>
          rw [List.getElem?_cons_zero] at hgetj
          have hs := Option.some.inj hgetj
          subst hs
          rw [Nat.add_zero]
          exact hc
        | succ m =>
          rw [List.getElem?_cons_succ] at hgetj
          have := hprior m spendj (Nat.lt_of_succ_lt_succ hj) hgetj
          rw [show k + (m + 1) = k + 1 + m from by omega]
          exact this
      · rintro ⟨i, spend, hget, herr, hprior⟩
        cases i with
        | zero =>
          rw [List.getElem?_cons_zero] at hget
          have hs := Option.some.inj hget
          subst hs
          rw [Nat.add_zero, hc] at herr
          exact Except.noConfusion herr
        | succ n =>
          refine ⟨n, spend, by rw [List.getElem?_cons_succ] at hget; exact hget,
            by rw [show k + 1 + n = k + (n + 1) from by omega]; exact herr, ?_⟩
          intro j spendj hj hgetj
          have := hprior (j + 1) spendj (Nat.succ_lt_succ hj)
            (by rw [List.getElem?_cons_succ]; exact hgetj)
          rw [show k + 1 + j = k + (j + 1) from by omega]
          exact this

/-- Claim C6 (amended): `validate_signatures` examines spends in index order
and short-circuits at the first failing spend (success iff every spend
passes; an error is exactly the first failing spend's error); for one spend
the check first propagates a condition-validation failure — verbatim, with
no spend-index tag — then fails with `InsufficientSignatures` ("Spend i has
insufficient signatures") when the accumulated signature count is below the
threshold, then fails with `InvalidSigner` ("Spend i has invalid signer")
when some accumulated signer is outside the spend's pubkey set, and succeeds
otherwise. -/
theorem validate_signatures_characterization (tx : Transaction) :
    (tx.validate_signatures = .ok () ↔
      ∀ i spend, tx.spends[i]? = some spend → spendCheck i spend = .ok ()) ∧
    (∀ e, tx.validate_signatures = .error e ↔
      ∃ i spend, tx.spends[i]? = some spend ∧ spendCheck i spend = .error e ∧
        ∀ j spendj, j < i → tx.spends[j]? = some spendj → spendCheck j spendj = .ok ()) ∧
    (∀ i spend e, spend.note.lock.pkh.validate = .error e →
      spendCheck i spend = .error e) ∧
    (∀ i spend, spend.note.lock.pkh.validate = .ok () →
      spend.seeds.signature_count < spend.note.lock.pkh.threshold →
      spendCheck i spend = .error ("Spend " ++ toString i ++ " has insufficient signatures")) ∧
    (∀ i spend, spend.note.lock.pkh.validate = .ok () →
      ¬ spend.seeds.signature_count < spend.note.lock.pkh.threshold →
      (∃ p ∈ spend.seeds.signatures, p.1 ∉ spend.note.lock.pkh.pubkeys) →
      spendCheck i spend = .error ("Spend " ++ toString i ++ " has invalid signer")) ∧
    (∀ i spend, spend.note.lock.pkh.validate = .ok () →
      ¬ spend.seeds.signature_count < spend.note.lock.pkh.threshold →
      (∀ p ∈ spend.seeds.signatures, p.1 ∈ spend.note.lock.pkh.pubkeys) →
      spendCheck i spend = .ok ()) := by
  refine ⟨?_, ?_, ?_, ?_, ?_, ?_⟩
  · rw [Transaction.validate_signatures, validateSpendsFrom_ok_iff]
    simp only [Nat.zero_add]
  · intro e
    rw [Transaction.validate_signatures, validateSpendsFrom_error_iff]
    simp only [Nat.zero_add]
  · intro i spend e hv
    simp only [spendCheck, hv]
  · intro i spend hv hcount
    simp only [spendCheck, hv, if_pos hcount]
  · rintro i spend hv hcount ⟨p, hp, hnm⟩
    have hany : spend.seeds.signatures.any
        (fun p => decide (p.1 ∉ spend.note.lock.pkh.pubkeys)) = true :=
      List.any_eq_true.mpr ⟨p, hp, decide_eq_true hnm⟩
    simp only [spendCheck, hv, if_neg hcount, if_pos hany]
  · intro i spend hv hcount hall
    have hany : spend.seeds.signatures.any
        (fun p => decide (p.1 ∉ spend.note.lock.pkh.pubkeys)) = false :=
      List.any_eq_false.mpr fun p hp hd =>
        (of_decide_eq_true hd) (hall p hp)
    simp only [spendCheck, hv, if_neg hcount, if_neg (ne_true_of_eq_false hany)]

/-- `validate_balance` succeeds exactly when the two (wrapping) totals are
equal. -/
theorem validate_balance_ok_iff (tx : Transaction) :
    tx.validate_balance = .ok () ↔ tx.total_input = tx.total_output := by
  unfold Transaction.validate_balance
  by_cases h : tx.total_input = tx.total_output
  · rw [if_neg (not_not.mpr h)]
    exact iff_of_true rfl h
  · rw [if_pos h]
    exact iff_of_false (fun hc => Except.noConfusion hc) h

/-- A successful `buildSpends` run returns exactly the input notes, each
paired with a fresh record whose hash was computed against the outputs-only
transaction at the note's overall index. -/
theorem buildSpends_ok_parts (outputs : List Output) (notes : List Note) (k : Nat)
    (spends : List Spend) (h : buildSpends outputs k notes = .ok spends) :
    spends.map Spend.note = notes ∧
    ∀ i spend, spends[i]? = some spend →
      spend.seeds = Seeds.new (compute_spend_hash (k + i)
        { spends := [], outputs := outputs }) := by
  induction notes generalizing k spends with
  | nil =>
    simp only [buildSpends] at h
    have hs := Except.ok.inj h
    subst hs
    exact ⟨rfl, fun i spend hget => by simp at hget⟩
  | cons note rest ih =>
    cases hv : note.lock.pkh.validate with
    | error e =>
      simp only [buildSpends, hv] at h
      exact Except.noConfusion h
    | ok u =>
      cases u
      cases hrest : buildSpends outputs (k + 1) rest with
      | error e =>
        simp only [buildSpends, hv, hrest] at h
        exact Except.noConfusion h
      | ok spends' =>
        simp only [buildSpends, hv, hrest] at h
        have hs := Except.ok.inj h
        subst hs
        obtain ⟨ihmap, ihhash⟩ := ih (k + 1) spends' hrest
        constructor
        · simp only [List.map_cons, ihmap]
        · intro i spend hget
          cases i with
          | zero =>
            rw [List.getElem?_cons_zero] at hget
            have hs0 := Option.some.inj hget
            subst hs0
            rw [Nat.add_zero]
          | succ n =>
            rw [List.getElem?_cons_succ] at hget
            have := ihhash n spend hget
            rw [show k + (n + 1) = k + 1 + n from by omega]
            exact this

/-- Claim C7: `validate_balance` fails with `BalanceMismatch` ("Input value
does not equal output value") iff the `u64` sum of all spend note values
(the plain sum modulo `2 ^ 64`) differs from the `u64` sum of all output
values, and succeeds iff they agree; every transaction `build_transaction`
returns balances (`total_input = total_output`, so its `validate_balance`
succeeds), and when the candidate notes and outputs do not balance the build
fails, producing no transaction. -/
theorem validate_balance_characterization :
    (∀ tx : Transaction, tx.validate_balance = .ok () ↔
      (tx.spends.map (fun s => s.note.value)).sum % 2 ^ 64 =
        (tx.outputs.map (fun o => o.value)).sum % 2 ^ 64) ∧
    (∀ tx : Transaction,
      tx.validate_balance = .error "Input value does not equal output value" ↔
      (tx.spends.map (fun s => s.note.value)).sum % 2 ^ 64 ≠
        (tx.outputs.map (fun o => o.value)).sum % 2 ^ 64) ∧
    (∀ notes outputs tx, build_transaction notes outputs = .ok tx →
      tx.total_input = tx.total_output ∧ tx.validate_balance = .ok ()) ∧
    (∀ notes outputs,
      (notes.map (fun n => n.value)).sum % 2 ^ 64 ≠
        (outputs.map (fun o => o.value)).sum % 2 ^ 64 →
      ∀ tx, build_transaction notes outputs ≠ .ok tx) := by
  have hmod : ∀ tx : Transaction, tx.total_input = tx.total_output ↔
      (tx.spends.map (fun s => s.note.value)).sum % 2 ^ 64 =
        (tx.outputs.map (fun o => o.value)).sum % 2 ^ 64 := by
    intro tx
    rw [Transaction.total_input, Transaction.total_output,
      u64sum_eq_sum_mod, u64sum_eq_sum_mod]
  have hbuild : ∀ notes outputs tx, build_transaction notes outputs = .ok tx →
      tx.total_input = tx.total_output ∧ tx.validate_balance = .ok () ∧
      tx.spends.map Spend.note = notes ∧ tx.outputs = outputs := by
    intro notes outputs tx h
    cases hbs : buildSpends outputs 0 notes with
    | error e =>
      simp only [build_transaction, hbs] at h
      exact Except.noConfusion h
    | ok spends =>
      cases hvb : ({ spends := spends, outputs := outputs } : Transaction).validate_balance with
      | error e =>
        simp only [build_transaction, hbs, hvb] at h
        exact Except.noConfusion h
      | ok u =>
        cases u
        simp only [build_transaction, hbs, hvb] at h
        have hs := Except.ok.inj h
        subst hs
        exact ⟨(validate_balance_ok_iff _).mp hvb, hvb,
          (buildSpends_ok_parts outputs notes 0 spends hbs).1, rfl⟩
  refine ⟨?_, ?_, fun notes outputs tx h => ⟨(hbuild notes outputs tx h).1,
    (hbuild notes outputs tx h).2.1⟩, ?_⟩
  · intro tx
    rw [validate_balance_ok_iff, hmod]
  · intro tx
    unfold Transaction.validate_balance
    by_cases h : tx.total_input = tx.total_output
    · rw [if_neg (not_not.mpr h)]
      exact iff_of_false (fun hc => Except.noConfusion hc) (not_not.mpr ((hmod tx).mp h))
    · rw [if_pos h]
      exact iff_of_true rfl (fun hc => h ((hmod tx).mpr hc))
  · intro notes outputs hne tx h
    obtain ⟨hbal, -, hnotes, houts⟩ := hbuild notes outputs tx h
    apply hne
    have hvals : tx.spends.map (fun s => s.note.value) = notes.map (fun n => n.value) := by
      rw [← hnotes, List.map_map]
      rfl
    have := (hmod tx).mp hbal
    rw [hvals, houts] at this
    exact this

/-- The stored message hash of every spend `build_transaction` constructs is
`compute_spend_hash` of the spend's index against the outputs-only
transaction: it is a function of the outputs and the index alone. -/
theorem build_hash_depends_only_on_outputs (notes : List Note) (outputs : List Output)
    (tx : Transaction) (h : build_transaction notes outputs = .ok tx) :
    tx.outputs = outputs ∧
    ∀ i spend, tx.spends[i]? = some spend →
      spend.seeds.message_hash =
        compute_spend_hash i { spends := [], outputs := outputs } := by
  cases hbs : buildSpends outputs 0 notes with
  | error e =>
    simp only [build_transaction, hbs] at h
    exact Except.noConfusion h
  | ok spends =>
    cases hvb : ({ spends := spends, outputs := outputs } : Transaction).validate_balance with
    | error e =>
      simp only [build_transaction, hbs, hvb] at h
      exact Except.noConfusion h
    | ok u =>
      cases u
      simp only [build_transaction, hbs, hvb] at h
      have hs := Except.ok.inj h
      subst hs
      obtain ⟨-, hhash⟩ := buildSpends_ok_parts outputs notes 0 spends hbs
      refine ⟨rfl, ?_⟩
      intro i spend hget
      have hsd := hhash i spend hget
      show spend.seeds.message_hash = _
      rw [hsd, Nat.zero_add]
      rfl

/-- Counterexample to claim C1 as stated: `[cexNote1]` and `[cexNote2]` are
two note lists differing in a note (different names), both of which build
successfully against the same outputs, yet the stored `message_hash` for
spend 0 is the same string in both resulting transactions — the stored hash
ignores the notes (it is computed against an outputs-only transaction), so
it does not change when a note of the skeleton changes. -/
theorem build_hash_ignores_notes_counterexample :
    spendNotes (build_transaction [cexNote1] cexOuts) = some [cexNote1] ∧
    spendNotes (build_transaction [cexNote2] cexOuts) = some [cexNote2] ∧
    cexNote1 ≠ cexNote2 ∧
    storedHash (build_transaction [cexNote1] cexOuts) 0 =
      some (compute_spend_hash 0 cexDummy) ∧
    storedHash (build_transaction [cexNote2] cexOuts) 0 =
      some (compute_spend_hash 0 cexDummy) :=
  ⟨by rfl, by rfl, by decide, by rfl, by rfl⟩

/-- Counterexample to claim C6 as stated: condition-validation failures are
propagated verbatim, not tagged with the spend index.  The invalid condition
fails at spend index 0 in `cexCondTx0` and at spend index 1 in `cexCondTx1`
(whose spend 0 passes every check), yet `validate_signatures` returns the
identical raw condition error "Threshold must be >= 1" for both — exactly
the string `PkhCondition::validate` produces, with no index — while the
insufficient-signature and invalid-signer failures do carry the index. -/
theorem validate_signatures_untagged_counterexample :
    cexCondTx0.validate_signatures = .error "Threshold must be >= 1" ∧
    cexCondTx1.validate_signatures = .error "Threshold must be >= 1" ∧
    spendCheck 0 wSpendSigned = .ok () ∧
    spendCheck 0 badCondSpend = .error "Threshold must be >= 1" ∧
    spendCheck 1 badCondSpend = .error "Threshold must be >= 1" ∧
    PkhCondition.validate { threshold := 0, pubkeys := [] } =
      .error "Threshold must be >= 1" :=
  ⟨by rfl, by rfl, by rfl, by rfl, by rfl, by rfl⟩

/-- Witness for the amended C1 at a concrete input: building `[cexNote1]`
against `cexOuts` yields `cexTx1`, whose only stored hash is the
outputs-only hash at index 0. -/
theorem build_hash_depends_only_on_outputs_witness :
    cexTx1.outputs = cexOuts ∧
    ∀ i spend, cexTx1.spends[i]? = some spend →
      spend.seeds.message_hash =
        compute_spend_hash i { spends := [], outputs := cexOuts } :=
  build_hash_depends_only_on_outputs [cexNote1] cexOuts cexTx1 (by rfl)

end Multisig
